import Mathlib

/-!
Verification of the Wake-on-LAN monitor (`src/main.py`).

The embedding below follows the Python source closely:
* `create_magic_packet` / `send_magic_packet` — magic-packet construction
  and the send operation (modelled as a trace of socket operations);
* `is_host_up` / `posixTimeoutS` — the reachability prober, with the
  subprocess result supplied as an oracle value;
* `step` / `runFrom` — the body of the `monitor_and_wake` loop as a step
  function on `MonitorState`, fed one `Tick` (the two probe results and
  the current wall-clock time) per iteration;
* `getenv_str` / `getenv_int` / `startupConfig` — the environment-based
  configuration reader from the `__main__` block.
-/

namespace WakeOnLan

/-! ## Magic packet construction (`create_magic_packet`, lines 8–13) -/

/-- Value of a hexadecimal digit, as accepted by Python's `bytes.fromhex`
(both cases). -/
def hexVal (c : Char) : Option Nat :=
  if '0' ≤ c ∧ c ≤ '9' then some (c.toNat - '0'.toNat)
  else if 'a' ≤ c ∧ c ≤ 'f' then some (c.toNat - 'a'.toNat + 10)
  else if 'A' ≤ c ∧ c ≤ 'F' then some (c.toNat - 'A'.toNat + 10)
  else none

/-- `c` is a hexadecimal digit. -/
def isHexDigit (c : Char) : Bool := (hexVal c).isSome

/-- Line 10: `mac.replace(":", "").replace("-", "").lower()`. -/
def normalizeMac (mac : List Char) : List Char :=
  (mac.filter (fun c => c ≠ ':' && c ≠ '-')).map Char.toLower

/-- Python's `bytes.fromhex`: pairs of hex digits, with spaces permitted
between pairs (and at either end) but not inside a pair; `none` models the
`ValueError` it raises otherwise. -/
def bytesFromHex : List Char → Option (List Nat)
  | [] => some []
  | c :: cs =>
    if c = ' ' then bytesFromHex cs
    else
      match cs with
      | [] => none
      | c2 :: cs2 =>
        (hexVal c).bind fun d1 =>
          (hexVal c2).bind fun d2 =>
            (bytesFromHex cs2).map fun bs => (16 * d1 + d2) :: bs

/-- Lines 8–13: normalize the MAC, reject when the normalized form is not
12 characters long, then return `b'\xff' * 6 + bytes.fromhex(mac) * 16`.
`Except.error` models the raised `ValueError` (either the explicit
`Invalid MAC address format` raise or the one from `bytes.fromhex`). -/
def create_magic_packet (mac : List Char) : Except String (List Nat) :=
  let m := normalizeMac mac
  if m.length ≠ 12 then
    .error "Invalid MAC address format"
  else
    match bytesFromHex m with
    | some bs => .ok (List.replicate 6 255 ++ (List.replicate 16 bs).flatten)
    | none => .error "non-hexadecimal number found in fromhex() arg"

/-- One observable socket operation performed by `send_magic_packet`. -/
inductive SockOp where
  | openSock
  | setBroadcast
  | sendto (packet : List Nat) (broadcast : List Char) (port : Int)
  | closeSock
deriving DecidableEq

/-- Lines 15–21: build the packet, then open a UDP socket, enable
broadcast, send and close.  The result is the trace of socket operations;
`Except.error` models the exception from `create_magic_packet`
propagating before any socket is opened. -/
def send_magic_packet (mac : List Char) (broadcast : List Char) (port : Int) :
    Except String (List SockOp) :=
  match create_magic_packet mac with
  | .error e => .error e
  | .ok packet =>
    .ok [SockOp.openSock, SockOp.setBroadcast,
         SockOp.sendto packet broadcast port, SockOp.closeSock]

/-! ## Reachability prober (`is_host_up`, lines 24–39) -/

/-- Outcome of the `subprocess.run(["ping", ...])` call: the process
exited with some return code, or an exception was raised while probing
(timeout, DNS failure, permission error, ...). -/
inductive ProbeOutcome where
  | exits (code : Int)
  | raises
deriving DecidableEq

/-- The platform branch taken on line 28. -/
inductive Platform where
  | windows
  | posix
deriving DecidableEq

/-- Round a rational to the nearest integer, ties to even — the rounding
used both inside IEEE-754 binary64 arithmetic and by Python's `round` on
a float (whose value is exact in ℚ). -/
def roundHalfEven (x : ℚ) : ℤ :=
  if x - ⌊x⌋ < 1 / 2 then ⌊x⌋
  else if 1 / 2 < x - ⌊x⌋ then ⌊x⌋ + 1
  else if ⌊x⌋ % 2 = 0 then ⌊x⌋ else ⌊x⌋ + 1

/-- The IEEE-754 binary64 double nearest to a positive rational `x`
(round to nearest, ties to even): `x` is rounded to the nearest multiple
of `2 ^ (e - 52)` where `2 ^ e ≤ x < 2 ^ (e + 1)`.  Faithful for
positive `x` in the normal finite range, which covers every quotient the
monitor can feed it short of float overflow. -/
def float64pos (x : ℚ) : ℚ :=
  (roundHalfEven (x / 2 ^ (Int.log 2 x - 52)) : ℚ) * 2 ^ (Int.log 2 x - 52)

/-- Line 34, `timeout_s = max(1, int(round(timeout_ms / 1000)))`:
`timeout_ms / 1000` is binary64 float division, Python's `round` maps
that double exactly to the nearest integer (ties to even), and `int` is
the identity on the result. -/
def posixTimeoutS (timeout_ms : Nat) : Int :=
  max 1 (roundHalfEven (float64pos ((timeout_ms : ℚ) / 1000)))

/-- The argument list passed to the probe tool (lines 30 and 35). -/
def pingCommand (p : Platform) (timeout_ms : Nat) (host : List Char) : List String :=
  match p with
  | .windows => ["ping", "-n", "1", "-w", toString timeout_ms, String.mk host]
  | .posix => ["ping", "-c", "1", "-W", toString (posixTimeoutS timeout_ms), String.mk host]

/-- Lines 24–39: `is_host_up` returns `result.returncode == 0`, and
`False` when any exception is raised; the platform and timeout only
affect the command line, not how the outcome is interpreted. -/
def is_host_up (p : Platform) (timeout_ms : Nat) (outcome : ProbeOutcome) : Bool :=
  match p, timeout_ms, outcome with
  | _, _, .exits code => code == 0
  | _, _, .raises => false

/-! ## Monitor state machine (`monitor_and_wake`, lines 46–87) -/

/-- The mutable state of the loop: `last_wol_sent_at = None` and
`prev_wol_up = None` initially (lines 57–58). -/
structure MonitorState where
  last_wol_sent_at : Option Int
  prev_wol_up : Option Bool
deriving DecidableEq

/-- Lines 57–58: both fields start unset. -/
def initState : MonitorState := ⟨none, none⟩

/-- The inputs one loop iteration consumes: the two probe results
(lines 61–62) and the wall-clock time at this tick. -/
structure Tick where
  network_up : Bool
  wol_up : Bool
  now : Int
deriving DecidableEq

/-- Observable output of one loop iteration: which notices were printed
and whether `send_magic_packet` was invoked. -/
structure TickOut where
  notified : Bool
  skipped : Bool
  sent : Bool
  cooldown_wait : Bool
deriving DecidableEq

/-- One iteration of the `while True` body (lines 60–87): emit a state
change notice when `prev_wol_up is None or wol_up != prev_wol_up`; when
the target is down, either skip (reference down), send a wake and record
the time (cooldown satisfied or no previous wake), or wait out the
cooldown. -/
def step (cooldown : Int) (s : MonitorState) (t : Tick) : MonitorState × TickOut :=
  let notified := s.prev_wol_up.isNone || s.prev_wol_up != some t.wol_up
  let prev := if notified then some t.wol_up else s.prev_wol_up
  if t.wol_up then
    (⟨s.last_wol_sent_at, prev⟩, ⟨notified, false, false, false⟩)
  else if !t.network_up then
    (⟨s.last_wol_sent_at, prev⟩, ⟨notified, true, false, false⟩)
  else
    let cooldown_ok :=
      match s.last_wol_sent_at with
      | none => true
      | some T => decide (cooldown ≤ t.now - T)
    if cooldown_ok then
      (⟨some t.now, prev⟩, ⟨notified, false, true, false⟩)
    else
      (⟨s.last_wol_sent_at, prev⟩, ⟨notified, false, false, true⟩)

/-- Run the loop body over a finite list of ticks, collecting the per-tick
outputs and the final state. -/
def runFrom (cooldown : Int) (s : MonitorState) : List Tick → List TickOut × MonitorState
  | [] => ([], s)
  | t :: ts =>
    let so := step cooldown s t
    let rest := runFrom cooldown so.1 ts
    (so.2 :: rest.1, rest.2)

/-- State of the monitor after it has processed the ticks `ts`, starting
from the initial state. -/
def stateAfter (cooldown : Int) (ts : List Tick) : MonitorState :=
  (runFrom cooldown initState ts).2

/-- Whether the tick following history `ts` invokes the Wake
Transmitter. -/
def sentAt (cooldown : Int) (ts : List Tick) (t : Tick) : Bool :=
  (step cooldown (stateAfter cooldown ts) t).2.sent

/-! ## Configuration reader (lines 109–141) -/

/-- The process environment after `load_env_file`: a map from variable
names to values. -/
def Env : Type := String → Option (List Char)

/-- Python's `str.strip()` (whitespace stripped from both ends). -/
def pyStrip (s : List Char) : List Char :=
  (s.dropWhile Char.isWhitespace).reverse.dropWhile Char.isWhitespace |>.reverse

/-- `value is None or str(value).strip() == ""` (line 111). -/
def missingOrEmpty (v : Option (List Char)) : Bool :=
  match v with
  | none => true
  | some s => (pyStrip s).isEmpty

/-- Lines 109–113: `os.environ.get(name, default)`, then raise
`RuntimeError` when the variable is required but missing or
whitespace-blank. -/
def getenv_str (env : Env) (name : String) (default : Option (List Char))
    (required : Bool) : Except String (Option (List Char)) :=
  let value := (env name).or default
  if required && missingOrEmpty value then
    .error ("Missing required configuration: " ++ name)
  else
    .ok value

/-- A valid digit run for Python's `int`: non-empty decimal digits, with
single underscores allowed only between digits. -/
def validPyDigits : List Char → Bool
  | [] => false
  | [c] => c.isDigit
  | c :: '_' :: rest => c.isDigit && validPyDigits rest
  | c :: rest => c.isDigit && validPyDigits rest

/-- Decimal value of a digit run (underscores skipped). -/
def digitsVal (l : List Char) : Nat :=
  (l.filter Char.isDigit).foldl (fun a c => 10 * a + (c.toNat - '0'.toNat)) 0

/-- The digit run parsed when valid, `none` otherwise. -/
def pyParseDigits (l : List Char) : Option Nat :=
  if validPyDigits l then some (digitsVal l) else none

/-- Python's `int(raw)`: strip whitespace, then an optional sign followed
by a digit run; `none` models the `ValueError` raised otherwise. -/
def pyParseInt (raw : List Char) : Option Int :=
  match pyStrip raw with
  | '+' :: rest => (pyParseDigits rest).map Int.ofNat
  | '-' :: rest => (pyParseDigits rest).map (fun n => -(Int.ofNat n))
  | rest => (pyParseDigits rest).map Int.ofNat

/-- Lines 116–123: return the default when the variable is unset or
`int(raw)` raises `ValueError`. -/
def getenv_int (env : Env) (name : String) (default : Int) : Int :=
  match env name with
  | none => default
  | some raw => (pyParseInt raw).getD default

/-- The configuration assembled by the `__main__` block. -/
structure Config where
  wol_server_ip : List Char
  wol_server_mac : List Char
  network_check_host : List Char
  broadcast_ip : List Char
  wol_port : Int
  ping_timeout_ms : Int
  check_interval_sec : Int
  wol_cooldown_sec : Int

/-- Lines 126–141: read the three required settings (any failure raises
`RuntimeError`, terminating the process with a non-zero status before
`monitor_and_wake` is called), then the optional ones with their
defaults. -/
def startupConfig (env : Env) : Except String Config := do
  let ip ← getenv_str env "WOL_SERVER_IP" none true
  let mac ← getenv_str env "WOL_SERVER_MAC" none true
  let host ← getenv_str env "NETWORK_CHECK_HOST" none true
  let bcast ← getenv_str env "BROADCAST_IP" (some "192.168.1.255".data) false
  pure
    { wol_server_ip := ip.getD []
      wol_server_mac := mac.getD []
      network_check_host := host.getD []
      broadcast_ip := bcast.getD []
      wol_port := getenv_int env "WOL_PORT" 9
      ping_timeout_ms := getenv_int env "PING_TIMEOUT_MS" 1000
      check_interval_sec := getenv_int env "CHECK_INTERVAL_SEC" 30
      wol_cooldown_sec := getenv_int env "WOL_COOLDOWN_SEC" 300 }

/-- `monitor_and_wake` (the loop) runs only when `startupConfig`
succeeds; a configuration error exits beforehand. -/
def main_enters_monitor_loop (env : Env) : Bool :=
  match startupConfig env with
  | .ok _ => true
  | .error _ => false

/-! ## Helper lemmas: magic packet -/

theorem hexDigit_ne_space {c : Char} (h : isHexDigit c = true) : c ≠ ' ' := by
  intro hc
  subst hc
  exact absurd h (by decide)

theorem bytesFromHex_all_hex :
    ∀ l : List Char, (∀ c ∈ l, isHexDigit c = true) → l.length % 2 = 0 →
      ∃ bs, bytesFromHex l = some bs ∧ 2 * bs.length = l.length
  | [], _, _ => ⟨[], rfl, rfl⟩
  | [c], _, hev => absurd hev (by simp)
  | c1 :: c2 :: rest, hhex, hev => by
    have h1 : isHexDigit c1 = true := hhex c1 (by simp)
    have h2 : isHexDigit c2 = true := hhex c2 (by simp)
    obtain ⟨d1, hd1⟩ := Option.isSome_iff_exists.mp h1
    obtain ⟨d2, hd2⟩ := Option.isSome_iff_exists.mp h2
    obtain ⟨bs, hbs, hlen⟩ := bytesFromHex_all_hex rest
      (fun c hc => hhex c (by simp [hc]))
      (by simp [List.length_cons] at hev ⊢; omega)
    refine ⟨(16 * d1 + d2) :: bs, ?_, ?_⟩
    · rw [bytesFromHex, if_neg (hexDigit_ne_space h1)]
      simp only [hd1, hd2, hbs]
      rfl
    · simp [List.length_cons]; omega

/-! ## Helper lemmas: rounding and binary64 -/

theorem abs_sub_roundHalfEven_le (x : ℚ) : |x - roundHalfEven x| ≤ 1 / 2 := by
  have h1 := Int.floor_le x
  have h2 := Int.lt_floor_add_one x
  unfold roundHalfEven
  split_ifs <;> push_cast <;> rw [abs_le] <;> constructor <;> linarith

theorem roundHalfEven_eq_of_abs_lt {x : ℚ} {n : ℤ} (h : |x - n| < 1 / 2) :
    roundHalfEven x = n := by
  rw [abs_lt] at h
  obtain ⟨hl, hr⟩ := h
  rcases le_or_lt (n : ℚ) x with hge | hlt
  · have hfl : ⌊x⌋ = n := Int.floor_eq_iff.mpr ⟨hge, by linarith⟩
    unfold roundHalfEven
    rw [hfl, if_pos (by linarith)]
  · have hfl : ⌊x⌋ = n - 1 :=
      Int.floor_eq_iff.mpr ⟨by push_cast; linarith, by push_cast; linarith⟩
    unfold roundHalfEven
    rw [hfl, if_neg (by push_cast; linarith), if_pos (by push_cast; linarith)]
    omega

theorem roundHalfEven_intCast (n : ℤ) : roundHalfEven (n : ℚ) = n :=
  roundHalfEven_eq_of_abs_lt (by norm_num)

theorem roundHalfEven_tie_even {n : ℤ} (h : n % 2 = 0) :
    roundHalfEven ((n : ℚ) + 1 / 2) = n := by
  have hfl : ⌊(n : ℚ) + 1 / 2⌋ = n :=
    Int.floor_eq_iff.mpr ⟨by linarith [le_refl (n : ℚ)], by linarith⟩
  unfold roundHalfEven
  rw [hfl, if_neg (by linarith), if_neg (by linarith), if_pos h]

theorem float64pos_error (x : ℚ) :
    |float64pos x - x| ≤ 2 ^ (Int.log 2 x - 52) / 2 := by
  unfold float64pos
  have hu0 : (0 : ℚ) < 2 ^ (Int.log 2 x - 52) := by positivity
  have hrw : (roundHalfEven (x / 2 ^ (Int.log 2 x - 52)) : ℚ) * 2 ^ (Int.log 2 x - 52) - x =
      ((roundHalfEven (x / 2 ^ (Int.log 2 x - 52)) : ℚ) - x / 2 ^ (Int.log 2 x - 52)) *
        2 ^ (Int.log 2 x - 52) := by
    field_simp
  rw [hrw, abs_mul, abs_of_pos hu0, abs_sub_comm]
  have hb := abs_sub_roundHalfEven_le (x / 2 ^ (Int.log 2 x - 52))
  calc |x / 2 ^ (Int.log 2 x - 52) - ↑(roundHalfEven (x / 2 ^ (Int.log 2 x - 52)))| *
        2 ^ (Int.log 2 x - 52)
      ≤ 1 / 2 * 2 ^ (Int.log 2 x - 52) := mul_le_mul_of_nonneg_right hb hu0.le
    _ = 2 ^ (Int.log 2 x - 52) / 2 := by ring

theorem float64pos_exact {x : ℚ} {n : ℤ}
    (h : x / 2 ^ (Int.log 2 x - 52) = (n : ℚ)) : float64pos x = x := by
  unfold float64pos
  rw [h, roundHalfEven_intCast, ← h]
  exact div_mul_cancel₀ x (by positivity)

theorem float64pos_tie {m : ℤ} (hlog : Int.log 2 ((m : ℚ) + 1 / 2) ≤ 51) :
    float64pos ((m : ℚ) + 1 / 2) = (m : ℚ) + 1 / 2 := by
  set e := Int.log 2 ((m : ℚ) + 1 / 2) with he
  have hk : ((51 - e).toNat : ℤ) = 51 - e := Int.toNat_of_nonneg (by omega)
  apply float64pos_exact (n := (2 * m + 1) * 2 ^ (51 - e).toNat)
  rw [← he, div_eq_iff (a := (m : ℚ) + 1 / 2) (zpow_ne_zero _ two_ne_zero)]
  push_cast
  rw [mul_assoc, ← zpow_natCast (2 : ℚ) (51 - e).toNat,
    ← zpow_add₀ (two_ne_zero : (2 : ℚ) ≠ 0)]
  have hsum : ((51 - e).toNat : ℤ) + (e - 52) = -1 := by omega
  rw [hsum]
  rw [zpow_neg, zpow_one]
  ring

/-- For timeouts up to `10 ^ 15` ms the float division error (at most
half an ulp, i.e. `2 ^ (e - 53)` with `e ≤ 39`) cannot move the quotient
across a rounding boundary: rounding the double equals rounding the
exact quotient. -/
theorem round_float64_div1000 (ms : Nat) (h0 : 0 < ms) (hle : ms ≤ 10 ^ 15) :
    roundHalfEven (float64pos ((ms : ℚ) / 1000)) = roundHalfEven ((ms : ℚ) / 1000) := by
  have hx0 : (0 : ℚ) < (ms : ℚ) / 1000 := by positivity
  have hxle : (ms : ℚ) / 1000 ≤ 10 ^ 12 := by
    rw [div_le_iff₀ (by norm_num)]
    calc (ms : ℚ) ≤ ((10 ^ 15 : ℕ) : ℚ) := by exact_mod_cast hle
      _ = 10 ^ 12 * 1000 := by norm_num
  have he : Int.log 2 ((ms : ℚ) / 1000) ≤ 39 := by
    by_contra hcon
    push_neg at hcon
    have h1 : ((2 : ℕ) : ℚ) ^ (40 : ℤ) ≤ ((2 : ℕ) : ℚ) ^ (Int.log 2 ((ms : ℚ) / 1000)) :=
      zpow_le_zpow_right₀ (by norm_num) (by omega)
    have h2 : ((2 : ℕ) : ℚ) ^ (Int.log 2 ((ms : ℚ) / 1000)) ≤ (ms : ℚ) / 1000 :=
      Int.zpow_log_le_self (by norm_num) hx0
    have h3 : ((2 : ℕ) : ℚ) ^ (40 : ℤ) ≤ 10 ^ 12 := le_trans (le_trans h1 h2) hxle
    rw [show ((40 : ℤ)) = ((40 : ℕ) : ℤ) from rfl, zpow_natCast] at h3
    norm_num at h3
  have herr : |float64pos ((ms : ℚ) / 1000) - (ms : ℚ) / 1000| ≤ 1 / 16384 := by
    calc |float64pos ((ms : ℚ) / 1000) - (ms : ℚ) / 1000|
        ≤ 2 ^ (Int.log 2 ((ms : ℚ) / 1000) - 52) / 2 := float64pos_error _
      _ ≤ 2 ^ (-13 : ℤ) / 2 := by
          have : (2 : ℚ) ^ (Int.log 2 ((ms : ℚ) / 1000) - 52) ≤ 2 ^ (-13 : ℤ) :=
            zpow_le_zpow_right₀ (by norm_num) (by omega)
          linarith
      _ = 1 / 16384 := by norm_num
  by_cases hm : ms % 1000 = 500
  · -- tie: the quotient is a half-integer, exactly representable here
    have hms : ms = 1000 * (ms / 1000) + 500 := by omega
    have hq : (ms : ℚ) = 1000 * ((ms / 1000 : ℕ) : ℚ) + 500 := by exact_mod_cast hms
    have hxeq : (ms : ℚ) / 1000 = ((ms / 1000 : ℕ) : ℚ) + 1 / 2 := by
      rw [hq]
      ring
    have hcast : (((ms / 1000 : ℕ) : ℤ) : ℚ) = ((ms / 1000 : ℕ) : ℚ) := by push_cast; rfl
    rw [hxeq, ← hcast]
    rw [float64pos_tie (by rw [hcast, ← hxeq]; omega)]
  · -- non-tie: the quotient is at least 1/1000 from the nearest boundary
    have h1 : |(ms : ℚ) / 1000 - (roundHalfEven ((ms : ℚ) / 1000) : ℚ)| ≤ 1 / 2 :=
      abs_sub_roundHalfEven_le _
    have hq : |(ms : ℚ) - 1000 * (roundHalfEven ((ms : ℚ) / 1000) : ℚ)| ≤ 500 := by
      have hrw : (ms : ℚ) - 1000 * (roundHalfEven ((ms : ℚ) / 1000) : ℚ) =
          ((ms : ℚ) / 1000 - (roundHalfEven ((ms : ℚ) / 1000) : ℚ)) * 1000 := by ring
      rw [hrw, abs_mul, abs_of_pos (by norm_num : (0 : ℚ) < 1000)]
      calc |(ms : ℚ) / 1000 - (roundHalfEven ((ms : ℚ) / 1000) : ℚ)| * 1000
          ≤ 1 / 2 * 1000 := mul_le_mul_of_nonneg_right h1 (by norm_num)
        _ = 500 := by norm_num
    have hqz : |(ms : ℤ) - 1000 * roundHalfEven ((ms : ℚ) / 1000)| ≤ 500 := by
      exact_mod_cast hq
    have h499 : |(ms : ℤ) - 1000 * roundHalfEven ((ms : ℚ) / 1000)| ≤ 499 := by
      have hd := abs_le.mp hqz
      rw [abs_le]
      omega
    have h499q : |(ms : ℚ) / 1000 - (roundHalfEven ((ms : ℚ) / 1000) : ℚ)| ≤ 499 / 1000 := by
      have h499c : |(ms : ℚ) - 1000 * (roundHalfEven ((ms : ℚ) / 1000) : ℚ)| ≤ 499 := by
        exact_mod_cast h499
      have hrw : (ms : ℚ) / 1000 - (roundHalfEven ((ms : ℚ) / 1000) : ℚ) =
          ((ms : ℚ) - 1000 * (roundHalfEven ((ms : ℚ) / 1000) : ℚ)) / 1000 := by ring
      rw [hrw, abs_div, abs_of_pos (by norm_num : (0 : ℚ) < 1000)]
      rw [div_le_div_iff₀ (by norm_num) (by norm_num)]
      linarith
    apply roundHalfEven_eq_of_abs_lt
    calc |float64pos ((ms : ℚ) / 1000) - (roundHalfEven ((ms : ℚ) / 1000) : ℚ)|
        ≤ |float64pos ((ms : ℚ) / 1000) - (ms : ℚ) / 1000| +
            |(ms : ℚ) / 1000 - (roundHalfEven ((ms : ℚ) / 1000) : ℚ)| := abs_sub_le _ _ _
      _ ≤ 1 / 16384 + 499 / 1000 := add_le_add herr h499q
      _ < 1 / 2 := by norm_num

theorem roundHalfEven_nearest_multiple (ms : Nat) (k : Int) :
    |1000 * roundHalfEven ((ms : ℚ) / 1000) - ms| ≤ |1000 * k - ms| := by
  have h1 : |(ms : ℚ) / 1000 - (roundHalfEven ((ms : ℚ) / 1000) : ℚ)| ≤ 1 / 2 :=
    abs_sub_roundHalfEven_le _
  have hq : |(ms : ℚ) - 1000 * (roundHalfEven ((ms : ℚ) / 1000) : ℚ)| ≤ 500 := by
    have hrw : (ms : ℚ) - 1000 * (roundHalfEven ((ms : ℚ) / 1000) : ℚ) =
        ((ms : ℚ) / 1000 - (roundHalfEven ((ms : ℚ) / 1000) : ℚ)) * 1000 := by ring
    rw [hrw, abs_mul, abs_of_pos (by norm_num : (0 : ℚ) < 1000)]
    calc |(ms : ℚ) / 1000 - (roundHalfEven ((ms : ℚ) / 1000) : ℚ)| * 1000
        ≤ 1 / 2 * 1000 := mul_le_mul_of_nonneg_right h1 (by norm_num)
      _ = 500 := by norm_num
  have hqz : |(ms : ℤ) - 1000 * roundHalfEven ((ms : ℚ) / 1000)| ≤ 500 := by
    exact_mod_cast hq
  rcases eq_or_ne k (roundHalfEven ((ms : ℚ) / 1000)) with rfl | hne
  · exact le_refl _
  · have hd := abs_le.mp hqz
    rcases abs_cases (1000 * roundHalfEven ((ms : ℚ) / 1000) - (ms : ℤ)) with ⟨ha, _⟩ | ⟨ha, _⟩ <;>
      rcases abs_cases (1000 * k - (ms : ℤ)) with ⟨hb, _⟩ | ⟨hb, _⟩ <;>
        rw [ha, hb] <;> omega

/-! ## Helper lemmas: monitor step and run -/

theorem step_sent_iff (c : Int) (s : MonitorState) (t : Tick) :
    (step c s t).2.sent = true ↔
      t.wol_up = false ∧ t.network_up = true ∧
        (s.last_wol_sent_at = none ∨
          ∃ T, s.last_wol_sent_at = some T ∧ c ≤ t.now - T) := by
  unfold step
  cases hw : t.wol_up <;> cases hn : t.network_up <;>
    cases hl : s.last_wol_sent_at <;> simp [hw, hn, hl]
  by_cases hP : c ≤ t.now - ‹Int› <;> simp [hP]

theorem step_last (c : Int) (s : MonitorState) (t : Tick) :
    (step c s t).1.last_wol_sent_at =
      if (step c s t).2.sent = true then some t.now else s.last_wol_sent_at := by
  unfold step
  cases hw : t.wol_up <;> cases hn : t.network_up <;>
    cases hl : s.last_wol_sent_at <;> simp [hw, hn, hl]
  by_cases hP : c ≤ t.now - ‹Int› <;> simp [hP]

theorem runFrom_append (c : Int) (s : MonitorState) (l1 l2 : List Tick) :
    runFrom c s (l1 ++ l2) =
      ((runFrom c s l1).1 ++ (runFrom c (runFrom c s l1).2 l2).1,
       (runFrom c (runFrom c s l1).2 l2).2) := by
  induction l1 generalizing s with
  | nil => simp [runFrom]
  | cons t ts ih => simp [runFrom, ih]

/-- Invariant used for the cooldown claim: the last-wake timestamp is
either still the wake time `T` or a later wake at least `c` after it. -/
def lastInv (c T : Int) (s : MonitorState) : Prop :=
  s.last_wol_sent_at = some T ∨ ∃ U, s.last_wol_sent_at = some U ∧ T + c ≤ U

theorem lastInv_step {c T : Int} {s : MonitorState} (t : Tick) (hc : 0 ≤ c)
    (h : lastInv c T s) : lastInv c T (step c s t).1 := by
  have hl := step_last c s t
  cases hsent : (step c s t).2.sent with
  | false =>
    rw [hsent] at hl; simp at hl
    unfold lastInv at h ⊢; rw [hl]; exact h
  | true =>
    rw [hsent] at hl; simp at hl
    obtain ⟨-, -, hcase⟩ := (step_sent_iff c s t).mp hsent
    rcases hcase with hnone | ⟨T', hT', hle⟩
    · rcases h with h | ⟨U, hU, -⟩ <;> rw [hnone] at * <;> simp_all
    · right
      refine ⟨t.now, hl, ?_⟩
      rcases h with h | ⟨U, hU, hTU⟩
      · rw [h] at hT'; injection hT' with hT'; omega
      · rw [hU] at hT'; injection hT' with hT'; omega

theorem lastInv_blocks {c T : Int} {s : MonitorState} (t : Tick) (hc : 0 ≤ c)
    (h : lastInv c T s) (hnow : t.now < T + c) : (step c s t).2.sent = false := by
  cases hsent : (step c s t).2.sent with
  | false => rfl
  | true =>
    obtain ⟨-, -, hcase⟩ := (step_sent_iff c s t).mp hsent
    exfalso
    rcases hcase with hnone | ⟨T', hT', hle⟩
    · rcases h with h | ⟨U, hU, -⟩ <;> simp_all
    · rcases h with h | ⟨U, hU, hTU⟩
      · rw [h] at hT'; injection hT' with hT'; omega
      · rw [hU] at hT'; injection hT' with hT'; omega

theorem lastInv_run {c T : Int} (hc : 0 ≤ c) (ts : List Tick) (s : MonitorState)
    (h : lastInv c T s) : lastInv c T (runFrom c s ts).2 := by
  induction ts generalizing s with
  | nil => exact h
  | cons t ts ih => exact ih _ (lastInv_step t hc h)

theorem run_keeps_last {c T : Int} (ts : List Tick) (s : MonitorState)
    (h : s.last_wol_sent_at = some T)
    (hts : ∀ tk ∈ ts, ¬(T + c ≤ tk.now ∧ tk.wol_up = false ∧ tk.network_up = true)) :
    (runFrom c s ts).2.last_wol_sent_at = some T := by
  induction ts generalizing s with
  | nil => exact h
  | cons t ts ih =>
    have hstep : (step c s t).2.sent = false := by
      cases hsent : (step c s t).2.sent with
      | false => rfl
      | true =>
        obtain ⟨hw, hn, hcase⟩ := (step_sent_iff c s t).mp hsent
        exfalso
        rcases hcase with hnone | ⟨T', hT', hle⟩
        · rw [h] at hnone; exact Option.noConfusion hnone
        · rw [h] at hT'; injection hT' with hT'
          exact hts t (by simp) ⟨by omega, hw, hn⟩
    have hl := step_last c s t
    rw [hstep] at hl; simp at hl
    exact ih _ (hl.trans h) (fun tk htk => hts tk (by simp [htk]))

theorem run_outage {c : Int} (ts : List Tick) (s : MonitorState)
    (h0 : s.last_wol_sent_at = none)
    (hts : ∀ t ∈ ts, t.wol_up = false → t.network_up = false) :
    (∀ o ∈ (runFrom c s ts).1, o.sent = false) ∧
      (runFrom c s ts).2.last_wol_sent_at = none := by
  induction ts generalizing s with
  | nil => exact ⟨by simp [runFrom], h0⟩
  | cons t ts ih =>
    have hstep : (step c s t).2.sent = false := by
      cases hsent : (step c s t).2.sent with
      | false => rfl
      | true =>
        obtain ⟨hw, hn, -⟩ := (step_sent_iff c s t).mp hsent
        rw [hts t (by simp) hw] at hn
        exact Bool.noConfusion hn
    have hl := step_last c s t
    rw [hstep] at hl; simp at hl
    have := ih (step c s t).1 (hl.trans h0) (fun tk htk => hts tk (by simp [htk]))
    refine ⟨?_, this.2⟩
    intro o ho
    simp [runFrom] at ho
    rcases ho with ho | ho
    · rw [ho]; exact hstep
    · exact this.1 o ho

theorem run_no_send_keeps_none {c : Int} (ts : List Tick) (s : MonitorState)
    (h0 : s.last_wol_sent_at = none)
    (hno : ∀ o ∈ (runFrom c s ts).1, o.sent = false) :
    (runFrom c s ts).2.last_wol_sent_at = none := by
  induction ts generalizing s with
  | nil => exact h0
  | cons t ts ih =>
    have hstep : (step c s t).2.sent = false := hno _ (by simp [runFrom])
    have hl := step_last c s t
    rw [hstep] at hl; simp at hl
    exact ih _ (hl.trans h0) (fun o ho => hno o (by simp [runFrom, ho]))

/-! ## Claim theorems: wake packet and transmitter -/

/-- Claim C5: every hardware address whose normalization (strip `:` and
`-`, lower-case) is exactly 12 hexadecimal characters yields a 102-byte
payload: 6 bytes of `0xFF` followed by 16 repetitions of the 6 raw
address bytes. -/
theorem magic_packet_of_valid_mac (mac : List Char)
    (h12 : (normalizeMac mac).length = 12)
    (hhex : ∀ c ∈ normalizeMac mac, isHexDigit c = true) :
    ∃ bs : List Nat, bytesFromHex (normalizeMac mac) = some bs ∧ bs.length = 6 ∧
      create_magic_packet mac =
        Except.ok (List.replicate 6 255 ++ (List.replicate 16 bs).flatten) ∧
      (List.replicate 6 255 ++ (List.replicate 16 bs).flatten).length = 102 := by
  obtain ⟨bs, hbs, hlen⟩ := bytesFromHex_all_hex (normalizeMac mac) hhex (by rw [h12])
  have hbs6 : bs.length = 6 := by omega
  refine ⟨bs, hbs, hbs6, ?_, ?_⟩
  · unfold create_magic_packet
    rw [if_neg (by rw [h12]; trivial), hbs]
  · simp [List.length_append, List.length_flatten, List.map_replicate, hbs6,
      List.sum_replicate]

/-- Claim C5 witness: the address `AA:BB:CC:DD:EE:FF` normalizes to
12 hex characters and its packet is the 102-byte magic packet. -/
theorem magic_packet_of_valid_mac_witness :
    (normalizeMac "AA:BB:CC:DD:EE:FF".data).length = 12 ∧
      ∃ bs : List Nat, bytesFromHex (normalizeMac "AA:BB:CC:DD:EE:FF".data) = some bs ∧
        bs.length = 6 ∧
        create_magic_packet "AA:BB:CC:DD:EE:FF".data =
          Except.ok (List.replicate 6 255 ++ (List.replicate 16 bs).flatten) ∧
        (List.replicate 6 255 ++ (List.replicate 16 bs).flatten).length = 102 :=
  ⟨by decide, magic_packet_of_valid_mac "AA:BB:CC:DD:EE:FF".data (by decide) (by decide)⟩

/-- Claim C6 (failing input): the 12-character address
`"aabbccddee  "` (10 hex digits plus two trailing spaces) does not
normalize to 12 hex characters, yet `create_magic_packet` accepts it —
`bytes.fromhex` skips spaces — producing an 86-byte (non-magic) payload,
and `send_magic_packet` proceeds to open a socket and transmit it. -/
theorem magic_packet_space_padded_sent :
    (normalizeMac "aabbccddee  ".data).length = 12 ∧
      (normalizeMac "aabbccddee  ".data).all isHexDigit = false ∧
      (create_magic_packet "aabbccddee  ".data).toOption.map List.length = some 86 ∧
      (send_magic_packet "aabbccddee  ".data "192.168.1.255".data 9).isOk = true := by
  refine ⟨by decide, by decide, ?_, ?_⟩ <;> rfl

/-- Claim C7: the prober returns `true` exactly when the probe tool
exits with return code 0; every exception (timeout, DNS failure,
permission error, ...) yields `false` rather than propagating. -/
theorem is_host_up_iff_success (p : Platform) (timeout_ms : Nat) (r : ProbeOutcome) :
    is_host_up p timeout_ms r = true ↔ r = ProbeOutcome.exits 0 := by
  cases r with
  | exits code =>
    simp only [is_host_up, beq_iff_eq, ProbeOutcome.exits.injEq]
  | raises =>
    simp only [is_host_up]
    exact ⟨fun h => Bool.noConfusion h, fun h => ProbeOutcome.noConfusion h⟩

/-- Claim C8, counterexample: at `timeout_ms = 17592186044416501` the
float quotient `timeout_ms / 1000` lands exactly on `2 ^ 44 + 1/2`
(the true quotient ends in `.501`, but the ulp there is `2 ^ -8`), so
the program passes `17592186044416` seconds while rounding the exact
quotient gives `17592186044417` — the probe argument is not
`max 1 (round (timeout_ms / 1000))` of the exact quotient, nor a nearest
multiple of 1000. -/
theorem posix_timeout_float_divergence :
    posixTimeoutS 17592186044416501 = 17592186044416 ∧
      roundHalfEven ((17592186044416501 : ℚ) / 1000) = 17592186044417 ∧
      posixTimeoutS 17592186044416501 ≠
        max 1 (roundHalfEven ((17592186044416501 : ℚ) / 1000)) := by
  have hx0 : (0 : ℚ) < (17592186044416501 : ℚ) / 1000 := by norm_num
  have hlog : Int.log 2 ((17592186044416501 : ℚ) / 1000) = 44 := by
    have h45 : Int.log 2 ((17592186044416501 : ℚ) / 1000) < 45 := by
      refine (Int.lt_zpow_iff_log_lt (by norm_num) hx0).mp ?_
      rw [show (45 : ℤ) = ((45 : ℕ) : ℤ) from rfl, zpow_natCast]
      norm_num
    have h44 : (44 : ℤ) ≤ Int.log 2 ((17592186044416501 : ℚ) / 1000) := by
      refine (Int.zpow_le_iff_le_log (by norm_num) hx0).mp ?_
      rw [show (44 : ℤ) = ((44 : ℕ) : ℤ) from rfl, zpow_natCast]
      norm_num
    omega
  have hdiv : ((17592186044416501 : ℚ) / 1000) / (2 : ℚ) ^ ((44 : ℤ) - 52) =
      562949953421328032 / 125 := by
    rw [show ((44 : ℤ) - 52) = -(8 : ℤ) from rfl, zpow_neg,
      show ((8 : ℤ)) = ((8 : ℕ) : ℤ) from rfl, zpow_natCast]
    norm_num
  have hr1 : roundHalfEven ((562949953421328032 : ℚ) / 125) = 4503599627370624 := by
    apply roundHalfEven_eq_of_abs_lt
    rw [show ((562949953421328032 : ℚ) / 125 - ((4503599627370624 : ℤ) : ℚ)) = 32 / 125 by
      push_cast; norm_num]
    rw [abs_of_pos (by norm_num)]
    norm_num
  have hf : float64pos ((17592186044416501 : ℚ) / 1000) = 35184372088833 / 2 := by
    unfold float64pos
    rw [hlog, hdiv, hr1]
    rw [show ((44 : ℤ) - 52) = -(8 : ℤ) from rfl, zpow_neg,
      show ((8 : ℤ)) = ((8 : ℕ) : ℤ) from rfl, zpow_natCast]
    norm_num
  have hr2 : roundHalfEven ((35184372088833 : ℚ) / 2) = 17592186044416 := by
    rw [show ((35184372088833 : ℚ) / 2) = ((17592186044416 : ℤ) : ℚ) + 1 / 2 by
      push_cast; norm_num]
    exact roundHalfEven_tie_even (by omega)
  have hexact : roundHalfEven ((17592186044416501 : ℚ) / 1000) = 17592186044417 := by
    apply roundHalfEven_eq_of_abs_lt
    rw [show ((17592186044416501 : ℚ) / 1000 - ((17592186044417 : ℤ) : ℚ)) = -(499 / 1000) by
      push_cast; norm_num]
    rw [abs_neg, abs_of_pos (by norm_num)]
    norm_num
  have hprog : posixTimeoutS 17592186044416501 = 17592186044416 := by
    unfold posixTimeoutS
    rw [show (((17592186044416501 : ℕ) : ℚ)) = (17592186044416501 : ℚ) by push_cast; rfl]
    rw [hf, hr2]
    rw [max_eq_right (by norm_num)]
  refine ⟨hprog, hexact, ?_⟩
  rw [hprog, hexact, max_eq_right (by norm_num)]
  norm_num

/-- Claim C8, amended: for every positive timeout up to `10 ^ 15` ms
(beyond which binary64 division error can flip the rounding, as the
counterexample shows), the seconds value passed to the probe tool equals
`max 1 (round (timeout_ms / 1000))` with `round` the exact half-to-even
rounding of the quotient, it is at least 1, and the rounding picks a
nearest multiple of 1000. -/
theorem posix_timeout_seconds_amended (timeout_ms : Nat) (h0 : 0 < timeout_ms)
    (hle : timeout_ms ≤ 10 ^ 15) :
    posixTimeoutS timeout_ms = max 1 (roundHalfEven ((timeout_ms : ℚ) / 1000)) ∧
      1 ≤ posixTimeoutS timeout_ms ∧
      ∀ k : ℤ,
        |1000 * roundHalfEven ((timeout_ms : ℚ) / 1000) - timeout_ms| ≤
          |1000 * k - timeout_ms| :=
  ⟨by unfold posixTimeoutS; rw [round_float64_div1000 timeout_ms h0 hle],
   le_max_left 1 _,
   fun k => roundHalfEven_nearest_multiple timeout_ms k⟩

/-- Claim C8 witness: at 1500 ms the probe tool receives
`max 1 (round 1.5) = 2` seconds. -/
theorem posix_timeout_seconds_amended_witness :
    posixTimeoutS 1500 = max 1 (roundHalfEven ((1500 : ℚ) / 1000)) ∧
      1 ≤ posixTimeoutS 1500 :=
  ⟨(posix_timeout_seconds_amended 1500 (by norm_num) (by norm_num)).1,
   (posix_timeout_seconds_amended 1500 (by norm_num) (by norm_num)).2.1⟩

/-! ## Claim theorems: configuration -/

theorem startup_ok_fields {env : Env} {cfg : Config} (h : startupConfig env = Except.ok cfg) :
    missingOrEmpty (env "WOL_SERVER_IP") = false ∧
      missingOrEmpty (env "WOL_SERVER_MAC") = false ∧
      missingOrEmpty (env "NETWORK_CHECK_HOST") = false := by
  by_cases h1 : missingOrEmpty (env "WOL_SERVER_IP") <;>
    by_cases h2 : missingOrEmpty (env "WOL_SERVER_MAC") <;>
      by_cases h3 : missingOrEmpty (env "NETWORK_CHECK_HOST") <;>
        simp_all [startupConfig, getenv_str, Option.or_none, Bind.bind,
          Except.instMonad, Except.bind]

/-- Claim C9: when any of the three required settings is missing or
blank, startup raises before `monitor_and_wake` is called — the process
never enters the monitor loop. -/
theorem startup_missing_field_fatal (env : Env)
    (h : missingOrEmpty (env "WOL_SERVER_IP") = true ∨
         missingOrEmpty (env "WOL_SERVER_MAC") = true ∨
         missingOrEmpty (env "NETWORK_CHECK_HOST") = true) :
    (∃ e, startupConfig env = Except.error e) ∧
      main_enters_monitor_loop env = false := by
  cases hc : startupConfig env with
  | ok cfg =>
    obtain ⟨h1, h2, h3⟩ := startup_ok_fields hc
    rcases h with h | h | h <;> simp_all
  | error e =>
    exact ⟨⟨e, rfl⟩, by simp [main_enters_monitor_loop, hc]⟩

/-- Claim C9 witness: with an empty environment the loop is never
entered. -/
theorem startup_missing_field_fatal_witness :
    main_enters_monitor_loop (fun _ => none) = false :=
  (startup_missing_field_fatal (fun _ => none) (Or.inl rfl)).2

/-- Claim C10: for every optional integer setting, an unset variable or
one whose value `int()` rejects silently yields the built-in default
rather than an error. -/
theorem getenv_int_default_on_bad (env : Env) (name : String) (d : Int)
    (h : ∀ raw, env name = some raw → pyParseInt raw = none) :
    getenv_int env name d = d := by
  unfold getenv_int
  cases henv : env name with
  | none => rfl
  | some raw =>
    show (pyParseInt raw).getD d = d
    rw [h raw henv]
    rfl

/-- Claim C10 witness: `WOL_PORT=not-a-number` falls back to port 9. -/
theorem getenv_int_default_on_bad_witness :
    getenv_int (fun _ => some "not-a-number".data) "WOL_PORT" 9 = 9 :=
  getenv_int_default_on_bad (fun _ => some "not-a-number".data) "WOL_PORT" 9
    (fun raw hr => by
      obtain rfl : raw = "not-a-number".data := (Option.some.inj hr).symm
      decide)

/-! ## Claim theorems: monitor loop -/

/-- Claim C1: on a run in which the reference host is down whenever the
target is down, no wake is ever sent and the last-wake timestamp stays
unset after every prefix of the run. -/
theorem outage_suppresses_wake (c : Int) (ts : List Tick)
    (h : ∀ t ∈ ts, t.wol_up = false → t.network_up = false) :
    (∀ o ∈ (runFrom c initState ts).1, o.sent = false) ∧
      ∀ n : Nat, (stateAfter c (ts.take n)).last_wol_sent_at = none := by
  refine ⟨(run_outage ts initState rfl h).1, fun n => ?_⟩
  exact (run_outage (ts.take n) initState rfl
    (fun t ht => h t (List.take_subset n ts ht))).2

/-- Claim C1 witness: three ticks of joint outage leave the timestamp
unset. -/
theorem outage_suppresses_wake_witness :
    (stateAfter 300 (([⟨false, false, 0⟩, ⟨true, true, 30⟩,
        ⟨false, false, 60⟩] : List Tick).take 3)).last_wol_sent_at = none :=
  (outage_suppresses_wake 300
    [⟨false, false, 0⟩, ⟨true, true, 30⟩, ⟨false, false, 60⟩] (by decide)).2 3

/-- Claim C2: after a wake at time `T` (the tick following history
`pre`), no tick before `T + c` sends again, and the first later tick at
or after `T + c` with the target down and the reference up does send. -/
theorem wake_cooldown (c : Int) (hc : 0 ≤ c) (pre mid : List Tick) (ti tj : Tick)
    (hsent : sentAt c pre ti = true) :
    (tj.now < ti.now + c → sentAt c (pre ++ ti :: mid) tj = false) ∧
      (ti.now + c ≤ tj.now → tj.wol_up = false → tj.network_up = true →
        (∀ tk ∈ mid, ¬(ti.now + c ≤ tk.now ∧ tk.wol_up = false ∧ tk.network_up = true)) →
        sentAt c (pre ++ ti :: mid) tj = true) := by
  unfold sentAt at hsent
  have hstate : stateAfter c (pre ++ ti :: mid) =
      (runFrom c (step c (stateAfter c pre) ti).1 mid).2 := by
    unfold stateAfter
    rw [runFrom_append]
    simp [runFrom]
  have hlast2 : (step c (stateAfter c pre) ti).1.last_wol_sent_at = some ti.now := by
    have hl := step_last c (stateAfter c pre) ti
    rw [hsent] at hl
    simpa using hl
  constructor
  · intro hnow
    unfold sentAt
    rw [hstate]
    exact lastInv_blocks tj hc (lastInv_run hc mid _ (Or.inl hlast2)) hnow
  · intro h1 h2 h3 hmid
    unfold sentAt
    rw [hstate]
    refine (step_sent_iff c _ tj).mpr ⟨h2, h3, Or.inr ⟨ti.now, ?_, by omega⟩⟩
    exact run_keeps_last mid _ hlast2 hmid

/-- Claim C2 witness: with a 300 s cooldown, a wake at time 1000 is not
repeated at time 1100 even though the target is still down and the
reference up. -/
theorem wake_cooldown_witness :
    sentAt 300 ([] : List Tick) ⟨true, false, 1000⟩ = true ∧
      sentAt 300 ([] ++ (⟨true, false, 1000⟩ : Tick) :: [⟨true, false, 1030⟩])
        ⟨true, false, 1100⟩ = false :=
  ⟨by decide,
   (wake_cooldown 300 (by decide) [] [⟨true, false, 1030⟩]
      ⟨true, false, 1000⟩ ⟨true, false, 1100⟩ (by decide)).1 (by decide)⟩

/-- Claim C3: if no wake was sent during the history `pre`, a tick with
the target down and the reference up always wakes, whatever the
configured cooldown — the unset timestamp never blocks the first
trigger. -/
theorem first_eligible_tick_wakes (c : Int) (pre : List Tick) (t : Tick)
    (hno : ∀ o ∈ (runFrom c initState pre).1, o.sent = false)
    (hdown : t.wol_up = false) (hnet : t.network_up = true) :
    sentAt c pre t = true := by
  unfold sentAt
  exact (step_sent_iff c _ t).mpr
    ⟨hdown, hnet, Or.inl (run_no_send_keeps_none pre initState rfl hno)⟩

/-- Claim C3 witness: even with a huge cooldown the very first eligible
tick wakes. -/
theorem first_eligible_tick_wakes_witness :
    sentAt 1000000000000 ([⟨true, true, 0⟩] : List Tick) ⟨true, false, 30⟩ = true :=
  first_eligible_tick_wakes 1000000000000 [⟨true, true, 0⟩] ⟨true, false, 30⟩
    (by decide) rfl rfl

/-- The tick sequence of the spec's scenario: target probes
`[Up, Up, Down, Down, Up]`, reference always up. -/
def scenarioTicks (n1 n2 n3 n4 n5 : Int) : List Tick :=
  [⟨true, true, n1⟩, ⟨true, true, n2⟩, ⟨true, false, n3⟩,
   ⟨true, false, n4⟩, ⟨true, true, n5⟩]

/-- Claim C4: on the scenario `[Up, Up, Down, Down, Up]` with the
reference up throughout (and the fourth tick still inside the cooldown
window opened at the third), the loop notifies exactly at ticks 1, 3
and 5 and sends exactly one wake, at tick 3. -/
theorem scenario_three_notices_one_wake (c n1 n2 n3 n4 n5 : Int) (h : n4 < n3 + c) :
    ((runFrom c initState (scenarioTicks n1 n2 n3 n4 n5)).1.map TickOut.notified =
      [true, false, true, false, true]) ∧
      ((runFrom c initState (scenarioTicks n1 n2 n3 n4 n5)).1.map TickOut.sent =
        [false, false, true, false, false]) := by
  have hd : decide (c ≤ n4 - n3) = false := decide_eq_false (by omega)
  simp [scenarioTicks, runFrom, step, initState, hd]

/-- Claim C4 witness: the scenario at times 0, 30, 60, 90, 120 with the
default 300 s cooldown. -/
theorem scenario_three_notices_one_wake_witness :
    ((runFrom 300 initState (scenarioTicks 0 30 60 90 120)).1.map TickOut.notified =
      [true, false, true, false, true]) ∧
      ((runFrom 300 initState (scenarioTicks 0 30 60 90 120)).1.map TickOut.sent =
        [false, false, true, false, false]) :=
  scenario_three_notices_one_wake 300 0 30 60 90 120 (by decide)

end WakeOnLan
